/-
  Verification of the enoki generic fallback / approximation layer
  (src/include/enoki/array_base.h) against its specification.

  Shallow embedding conventions:
  * A vector of lane count `n` is a function `Fin n → F` (resp. `Fin n → α`
    for the generic integer/masked operations).  All operations in the source
    are lane-wise, so they are embedded as maps of lane-level functions.
  * `F` is an idealized model of an IEEE single-precision value: an exact
    rational (no rounding), `+∞`, `-∞`, or a NaN.  The NaN constructor carries
    a flag recording whether the bit pattern is the all-bits-set pattern that
    the library ORs into a lane to tag it as invalid.  Arithmetic involving a
    NaN yields `nan false` (payload propagation of ordinary arithmetic is not
    modelled; no claim depends on it).  Signed zero and denormals are not
    modelled (exact rationals).
  * A mask lane is a `Bool` (the source represents mask lanes as
    all-bits-set / all-bits-clear patterns of the value type).
  * Bit-manipulation on floats (sign-mask extraction, OR/AND with a mask,
    `ldexp`/`frexp` exponent surgery) is translated to its value-level
    effect, documented at each definition.
-/
import Mathlib

namespace Enoki

/-- Idealized IEEE scalar value: exact rational, infinities, or NaN.
`nan true` is the all-bits-set bit pattern (the "invalid" tag produced by
OR-ing an all-ones mask into a lane); `nan false` is any other NaN. -/
inductive F where
  | fin (q : ℚ)
  | pinf
  | ninf
  | nan (allBits : Bool)
deriving DecidableEq, Repr

/-- Unary negation (source `neg_`: XOR of the sign bit for floating types).
Flipping the sign bit of the all-ones pattern leaves a NaN that is no longer
all-ones. -/
def negF : F → F
  | .fin q => .fin (-q)
  | .pinf => .ninf
  | .ninf => .pinf
  | .nan _ => .nan false

/-- Lane-wise addition. -/
def addF : F → F → F
  | .fin a, .fin b => .fin (a + b)
  | .fin _, .pinf => .pinf
  | .fin _, .ninf => .ninf
  | .pinf, .fin _ => .pinf
  | .ninf, .fin _ => .ninf
  | .pinf, .pinf => .pinf
  | .ninf, .ninf => .ninf
  | _, _ => .nan false

/-- Lane-wise subtraction. -/
def subF (a b : F) : F := addF a (negF b)

/-- Lane-wise multiplication. -/
def mulF : F → F → F
  | .fin a, .fin b => .fin (a * b)
  | .fin a, .pinf => if 0 < a then .pinf else if a < 0 then .ninf else .nan false
  | .fin a, .ninf => if 0 < a then .ninf else if a < 0 then .pinf else .nan false
  | .pinf, .fin b => if 0 < b then .pinf else if b < 0 then .ninf else .nan false
  | .ninf, .fin b => if 0 < b then .ninf else if b < 0 then .pinf else .nan false
  | .pinf, .pinf => .pinf
  | .pinf, .ninf => .ninf
  | .ninf, .pinf => .ninf
  | .ninf, .ninf => .pinf
  | _, _ => .nan false

/-- Lane-wise division (division of a nonzero value by zero gives the
infinity of the dividend's sign; signed zero is not modelled). -/
def divF : F → F → F
  | .fin a, .fin b =>
      if b = 0 then (if 0 < a then .pinf else if a < 0 then .ninf else .nan false)
      else .fin (a / b)
  | .fin _, .pinf => .fin 0
  | .fin _, .ninf => .fin 0
  | .pinf, .fin b => if 0 ≤ b then .pinf else .ninf
  | .ninf, .fin b => if 0 ≤ b then .ninf else .pinf
  | _, _ => .nan false

/-- Absolute value (clears the sign bit). -/
def absF : F → F
  | .fin q => .fin |q|
  | .pinf => .pinf
  | .ninf => .pinf
  | .nan _ => .nan false

/-- IEEE-style `<` comparison: comparisons involving NaN are false. -/
def ltF : F → F → Bool
  | .fin a, .fin b => decide (a < b)
  | .fin _, .pinf => true
  | .fin _, .ninf => false
  | .pinf, .fin _ => false
  | .ninf, .fin _ => true
  | .ninf, .pinf => true
  | .pinf, .pinf => false
  | .ninf, .ninf => false
  | .pinf, .ninf => false
  | _, _ => false

def isNanF : F → Bool
  | .nan _ => true
  | _ => false

/-- IEEE-style `>` comparison. -/
def gtF (a b : F) : Bool := ltF b a

/-- IEEE-style `≥` comparison (false whenever an operand is NaN). -/
def geF (a b : F) : Bool := !isNanF a && !isNanF b && !ltF a b

/-- IEEE-style equality comparison (NaN compares unequal to everything). -/
def eqF : F → F → Bool
  | .fin a, .fin b => decide (a = b)
  | .pinf, .pinf => true
  | .ninf, .ninf => true
  | _, _ => false

/-- `max` fallback, as `select(a < b, b, a)`. -/
def maxF (a b : F) : F := if ltF a b then b else a

/-- `min` fallback, as `select(b < a, b, a)`. -/
def minF (a b : F) : F := if ltF b a then b else a

/-- `floor`. -/
def floorF : F → F
  | .fin q => .fin ⌊q⌋
  | x => x

/-- Fused multiply-add fallback `fmadd_` (`derived() * b + c`); exact
rationals make fused and unfused agree. -/
def fmaddLane (a b c : F) : F := addF (mulF a b) c

/-- Fused multiply-subtract fallback `fmsub_` (`derived() * b - c`). -/
def fmsubLane (a b c : F) : F := subF (mulF a b) c

/-- Per-lane `select(mask, t, e)`: the lane of `t` where the mask lane is
all-ones, the lane of `e` where it is all-zeros. -/
def selectF (c : Bool) (t e : F) : F := if c then t else e

/-- Lane-level effect of `value | mask` with a mask lane: OR with the
all-bits-set pattern gives the all-bits-set pattern (an invalid-tagged NaN);
OR with the all-zeros pattern is the identity. -/
def orMaskF (v : F) (m : Bool) : F := if m then .nan true else v

/-- Lane-level effect of `value & mask` with a mask lane: AND with all-ones
is the identity; AND with all-zeros gives the `+0.0` bit pattern. -/
def andMaskF (v : F) (m : Bool) : F := if m then v else .fin 0

/-- Lane-level effect of XOR-ing a float with a sign-bit mask (either
`0x80000000` or `0`): conditional sign-bit flip, i.e. conditional negation. -/
def xorSignF (v : F) (s : Bool) : F := if s then negF v else v

/-- Lane-level effect of setting the sign bit of a value (OR with
`0x80000000`): the result is negative with the same magnitude. -/
def orSignF : F → F
  | .fin q => .fin (-|q|)
  | .pinf => .ninf
  | .ninf => .ninf
  | .nan b => .nan b

/-- Lane-level effect of OR-ing a value with a sign-bit mask that is either
`0x80000000` (when `s`) or `0`. -/
def orSignMaskF (v : F) (s : Bool) : F := if s then orSignF v else v

/-- Sign bit of a value (`detail::sign_mask`).  The all-bits-set NaN has its
sign bit set. -/
def signBitF : F → Bool
  | .fin q => decide (q < 0)
  | .pinf => false
  | .ninf => true
  | .nan b => b

/-- Cast of a float to a signed integer: truncation toward zero.  The C++
cast is undefined for NaN/infinity; those lanes are mapped to 0 (no claim
exercises them). -/
def truncF : F → ℤ
  | .fin q => if q < 0 then ⌈q⌉ else ⌊q⌋
  | _ => 0

/-- Cast of an integer lane back to a float (exact in the idealization). -/
def ofIntF (i : ℤ) : F := .fin (i : ℚ)

/-- Reciprocal fallback `rcp_` (`Scalar(1) / x`). -/
def rcpF (x : F) : F := divF (.fin 1) x

/-- A vector value: `n` lanes of idealized floats. -/
def Vec (n : ℕ) := Fin n → F

/-- Lane-wise map (the scalar fallback loops `for i < Size: r[i] = f(x[i])`). -/
def mapF {n : ℕ} (f : F → F) (v : Vec n) : Vec n := fun i => f (v i)

end Enoki

/- The rational operations of the standard library are `@[irreducible]`;
make them kernel-reducible so that concrete lane values can be settled by
`decide`. -/
attribute [local semireducible] Rat.add Rat.mul Rat.sub Rat.inv Rat.ofScientific

namespace Enoki

/-! ### Kernel-reducible numeric helpers (binary logarithm, square root) -/

/-- `⌊log₂ n⌋` for `n ≥ 1` (0 for `n ≤ 1`), fuel-based so the kernel can
evaluate it. -/
def natLog2F : ℕ → ℕ → ℕ
  | 0, _ => 0
  | fuel + 1, n => if n ≤ 1 then 0 else natLog2F fuel (n / 2) + 1

/-- `⌊log₂ n⌋` for `n ≥ 1`. -/
def natLog2 (n : ℕ) : ℕ := natLog2F n n

/-- `⌈log₂ n⌉` for `n ≥ 1`. -/
def natClog2 (n : ℕ) : ℕ := if n ≤ 1 then 0 else natLog2 (n - 1) + 1

/-- `⌊log₂ q⌋` for a positive rational `q` (0 on nonpositive input).  This is
the value of the IEEE exponent-bit field (minus the bias) that the bit-level
`frexp` reads. -/
def ilog2 (q : ℚ) : ℤ :=
  if q.num ≤ 0 then 0
  else if q.den ≤ q.num.toNat then (natLog2 (q.num.toNat / q.den) : ℤ)
  else -(natClog2 ((q.den + q.num.toNat - 1) / q.num.toNat) : ℤ)

/-- `2 ^ k` as a rational, for `k : ℤ`. -/
def pow2R (k : ℤ) : ℚ :=
  if 0 ≤ k then mkRat (2 ^ k.toNat) 1 else mkRat 1 (2 ^ (-k).toNat)

/-- Bit-by-bit integer square root (largest `r` with `r * r ≤ n`),
fuel-based so the kernel can evaluate it. -/
def natSqrtGo : ℕ → ℕ → ℕ → ℕ
  | 0, _, r => r
  | b + 1, n, r => if (r + 2 ^ b) * (r + 2 ^ b) ≤ n then natSqrtGo b n (r + 2 ^ b) else natSqrtGo b n r

/-- Integer square root, rounded down. -/
def natSqrtK (n : ℕ) : ℕ := natSqrtGo (natLog2 n / 2 + 1) n 0

/-- Rational square root, idealized as in `Rat.sqrt` (square root of
numerator and denominator, each rounded down); exact on perfect squares. -/
def ratSqrt (q : ℚ) : ℚ := mkRat (natSqrtK q.num.toNat) (natSqrtK q.den)

/-- Bit 2 of a (two's complement) integer lane; `sli<29>` moves it to the
float sign-bit position. -/
def intBit2 (j : ℤ) : Bool := decide (4 ≤ j.emod 8)

end Enoki

namespace Enoki

/-! ### The external scalar math library (out-of-scope collaborator)

The non-approximate path of every transcendental function is a lane-wise
loop over calls to the scalar implementation of that function; those scalar
implementations live outside this component.  They are modelled as an
abstract record of scalar functions. -/

structure ScalarLib where
  sin : F → F
  cos : F → F
  tan : F → F
  asin : F → F
  acos : F → F
  atan : F → F
  atan2 : F → F → F
  exp : F → F
  log : F → F
  ldexp : F → F → F
  frexp : F → F × F
  pow : F → F → F
  sinh : F → F
  cosh : F → F
  tanh : F → F
  csch : F → F
  sech : F → F
  coth : F → F
  asinh : F → F
  acosh : F → F
  atanh : F → F
  erf : F → F
  erfi : F → F

/-! ### Transcendental approximation lanes (`Approx = true` branches)

Each definition below is the per-lane value-level translation of the
corresponding `if (Approx)` branch in `array_base.h`; float constants are
taken as exact rationals. -/

/-- `sqrt` primitive (supplied by the concrete type), idealized. -/
def sqrtLane : F → F
  | .fin q => if q < 0 then .nan false else .fin (ratSqrt q)
  | .pinf => .pinf
  | .ninf => .nan false
  | .nan _ => .nan false

/-- `ldexp_`, approximate branch: `x * reinterpret(sli<23>(int(n) + 0x7f))`.
The factor is the float whose bit pattern is `(int(n) + 127) << 23`:
exponent field `(int(n) + 127) mod 256`, sign bit = bit 8 of
`(int(n) + 127)`. -/
def ldexpFactorF (n : F) : F :=
  let e : ℤ := truncF n + 127
  let e9 : ℤ := e.emod 512
  let sign : Bool := decide (256 ≤ e9)
  let ef : ℤ := e9.emod 256
  if ef = 0 then .fin 0
  else if ef = 255 then (if sign then F.ninf else F.pinf)
  else
    let mag : ℚ := pow2R (ef - 127)
    .fin (if sign then -mag else mag)

/-- `ldexp_`, approximate branch. -/
def ldexpApproxLane (x n : F) : F := mulF x (ldexpFactorF n)

/-- `frexp_`, approximate branch: splits a normal value into a mantissa with
magnitude in `[1/2, 1)` (sign preserved) and an integer exponent; zero,
infinities and NaN yield the input itself with exponent 0 (the
`is_normal` select).  Denormals do not exist in the exact-rational
idealization (the caveat in the source says they are unhandled anyway). -/
def frexpApproxLane : F → F × F
  | .fin q =>
      if q = 0 then (.fin 0, .fin 0)
      else
        let e : ℤ := ilog2 |q| + 1
        (.fin (q * pow2R (-e)), .fin (e : ℚ))
  | x => (x, .fin 0)

/-- Saturation threshold of the approximate `exp_`. -/
def expMaxRange : ℚ := 88.3762626647949

/-- `exp_` approximate branch: `n = floor(1.44269504088896341 * x + 0.5)`. -/
def expNLane (x : F) : F :=
  floorF (addF (mulF (.fin 1.44269504088896341) x) (.fin 0.5))

/-- `exp_` approximate branch: two-step high-precision reduction
`g = x - n * 0.693359375 - n * (-2.12194440e-4)`. -/
def expGLane (x : F) : F :=
  let n := expNLane x
  subF (subF x (mulF n (.fin 0.693359375))) (mulF n (.fin (-2.12194440e-4)))

/-- `exp_` approximate branch: polynomial for `e^g`. -/
def expZLane (x : F) : F :=
  let g := expGLane x
  let z0 : F := .fin (1.9875691500e-4 : ℚ)
  let z1 := fmaddLane z0 g (.fin (1.3981999507e-3 : ℚ))
  let z2 := fmaddLane z1 g (.fin (8.3334519073e-3 : ℚ))
  let z3 := fmaddLane z2 g (.fin (4.1665795894e-2 : ℚ))
  let z4 := fmaddLane z3 g (.fin (1.6666665459e-1 : ℚ))
  let z5 := fmaddLane z4 g (.fin (5.0000001201e-1 : ℚ))
  let z6 := mulF (mulF z5 g) g
  addF z6 (addF g (.fin 1))

/-- `exp_`, approximate branch:
`select(x > maxRange, inf, select(x < minRange, 0, ldexp(z, n)))`. -/
def expApproxLane (x : F) : F :=
  selectF (gtF x (.fin expMaxRange)) .pinf
    (selectF (ltF x (.fin (-expMaxRange))) (.fin 0)
      (ldexpApproxLane (expZLane x) (expNLane x)))

/-- `log_`, approximate branch.  Negative and NaN inputs fail the
`x >= 0` test and have the all-ones mask OR'd into the result
(`z | ~validMask`); a `+∞` input is mapped to `+∞` by the outer select. -/
def logApproxLane (x0 : F) : F :=
  let valid : Bool := geF x0 (.fin 0)
  let x1 := maxF x0 (.fin (mkRat 1 (2 ^ 126)))
  let me := frexpApproxLane x1
  let m0 := me.1
  let e0 := me.2
  let lt2 : Bool := ltF m0 (.fin 0.707106781186547524)
  let e1 := subF e0 (andMaskF (.fin 1) lt2)
  let m1 := addF m0 (subF (andMaskF m0 lt2) (.fin 1))
  let z0 := mulF m1 m1
  let y0 : F := .fin (7.0376836292e-2 : ℚ)
  let y1 := fmaddLane y0 m1 (.fin (-1.1514610310e-1 : ℚ))
  let y2 := fmaddLane y1 m1 (.fin (1.1676998740e-1 : ℚ))
  let y3 := fmaddLane y2 m1 (.fin (-1.2420140846e-1 : ℚ))
  let y4 := fmaddLane y3 m1 (.fin (1.4249322787e-1 : ℚ))
  let y5 := fmaddLane y4 m1 (.fin (-1.6668057665e-1 : ℚ))
  let y6 := fmaddLane y5 m1 (.fin (2.0000714765e-1 : ℚ))
  let y7 := fmaddLane y6 m1 (.fin (-2.4999993993e-1 : ℚ))
  let y8 := fmaddLane y7 m1 (.fin (3.3333331174e-1 : ℚ))
  let y9 := mulF y8 (mulF m1 z0)
  let y10 := addF y9 (mulF (.fin (-2.12194440e-4)) e1)
  let y11 := addF y10 (mulF (.fin (-0.5)) z0)
  let z1 := addF m1 y11
  let z2 := addF z1 (mulF (.fin 0.693359375) e1)
  selectF (eqF x0 .pinf) .pinf (orMaskF z2 (!valid))

/-- `sin_`, approximate branch (CEPHES-style quadrant reduction; the sign is
the sign bit of `reinterpret(sli<29>(j)) ^ x`, i.e. bit 2 of `j` XOR the
sign of the input). -/
def sinApproxLane (x0 : F) : F :=
  let x := absF x0
  let j0 : ℤ := truncF (mulF x (.fin 1.27323954473516))
  let j : ℤ := (j0 + 1) - (j0 + 1).emod 2
  let y := ofIntF j
  let sgn : Bool := intBit2 j != signBitF x0
  let x1 := subF (subF (subF x (mulF y (.fin 0.78515625)))
      (mulF y (.fin 2.4187564849853515625e-4)))
      (mulF y (.fin 3.77489497744594108e-8))
  let z := mulF x1 x1
  let s0 : F := .fin (-1.9515295891e-4 : ℚ)
  let s1 := fmaddLane s0 z (.fin (8.3321608736e-3 : ℚ))
  let s2 := fmaddLane s1 z (.fin (-1.6666654611e-1 : ℚ))
  let s3 := mulF s2 (mulF z x1)
  let s4 := addF s3 x1
  let c0 : F := .fin (2.443315711809948e-5 : ℚ)
  let c1 := fmaddLane c0 z (.fin (-1.388731625493765e-3 : ℚ))
  let c2 := fmaddLane c1 z (.fin (4.166664568298827e-2 : ℚ))
  let c3 := mulF c2 (mulF z z)
  let c4 := subF c3 (mulF (.fin 0.5) z)
  let c5 := addF c4 (.fin 1)
  let poly : Bool := decide (j.emod 4 < 2)
  xorSignF (selectF poly s4 c5) sgn

/-- `cos_`, approximate branch (sign = bit 2 of `~(j - 2)`). -/
def cosApproxLane (x0 : F) : F :=
  let x := absF x0
  let j0 : ℤ := truncF (mulF x (.fin 1.27323954473516))
  let j : ℤ := (j0 + 1) - (j0 + 1).emod 2
  let y := ofIntF j
  let sgn : Bool := !intBit2 (j - 2)
  let x1 := subF (subF (subF x (mulF y (.fin 0.78515625)))
      (mulF y (.fin 2.4187564849853515625e-4)))
      (mulF y (.fin 3.77489497744594108e-8))
  let z := mulF x1 x1
  let s0 : F := .fin (-1.9515295891e-4 : ℚ)
  let s1 := fmaddLane s0 z (.fin (8.3321608736e-3 : ℚ))
  let s2 := fmaddLane s1 z (.fin (-1.6666654611e-1 : ℚ))
  let s3 := mulF s2 (mulF z x1)
  let s4 := addF s3 x1
  let c0 : F := .fin (2.443315711809948e-5 : ℚ)
  let c1 := fmaddLane c0 z (.fin (-1.388731625493765e-3 : ℚ))
  let c2 := fmaddLane c1 z (.fin (4.166664568298827e-2 : ℚ))
  let c3 := mulF c2 (mulF z z)
  let c4 := subF c3 (mulF (.fin 0.5) z)
  let c5 := addF c4 (.fin 1)
  let poly : Bool := decide (j.emod 4 < 2)
  xorSignF (selectF poly c5 s4) sgn

/-- `sincos_`, approximate branch (shared quadrant reduction, both signs). -/
def sincosApproxLane (x0 : F) : F × F :=
  let x := absF x0
  let j0 : ℤ := truncF (mulF x (.fin 1.27323954473516))
  let j : ℤ := (j0 + 1) - (j0 + 1).emod 2
  let y := ofIntF j
  let sgnSin : Bool := intBit2 j != signBitF x0
  let sgnCos : Bool := !intBit2 (j - 2)
  let x1 := subF (subF (subF x (mulF y (.fin 0.78515625)))
      (mulF y (.fin 2.4187564849853515625e-4)))
      (mulF y (.fin 3.77489497744594108e-8))
  let z := mulF x1 x1
  let s0 : F := .fin (-1.9515295891e-4 : ℚ)
  let s1 := fmaddLane s0 z (.fin (8.3321608736e-3 : ℚ))
  let s2 := fmaddLane s1 z (.fin (-1.6666654611e-1 : ℚ))
  let s3 := mulF s2 (mulF z x1)
  let s4 := addF s3 x1
  let c0 : F := .fin (2.443315711809948e-5 : ℚ)
  let c1 := fmaddLane c0 z (.fin (-1.388731625493765e-3 : ℚ))
  let c2 := fmaddLane c1 z (.fin (4.166664568298827e-2 : ℚ))
  let c3 := mulF c2 (mulF z z)
  let c4 := subF c3 (mulF (.fin 0.5) z)
  let c5 := addF c4 (.fin 1)
  let poly : Bool := decide (j.emod 4 < 2)
  (xorSignF (selectF poly s4 c5) sgnSin, xorSignF (selectF poly c5 s4) sgnCos)

/-- `tan_`, approximate branch: `sincos` then lane-wise quotient. -/
def tanApproxLane (x : F) : F :=
  let sc := sincosApproxLane x
  divF sc.1 sc.2

/-- `asin_`, approximate branch.  Out-of-domain lanes (`|x| > 1`) have the
all-ones mask OR'd into the result (`... | invalidMask`). -/
def asinApproxLane (x0 : F) : F :=
  let x := absF x0
  let invalid : Bool := gtF x (.fin 1)
  let negate : Bool := ltF x0 (.fin 0)
  let t0 : F := .fin (0.00227944990024845419940890 : ℚ)
  let t1 := fmaddLane t0 x (.fin (-0.01109688980710918972127294 : ℚ))
  let t2 := fmaddLane t1 x (.fin (0.02684475831352801832421248 : ℚ))
  let t3 := fmaddLane t2 x (.fin (-0.04877412052802108370460564 : ℚ))
  let t4 := fmaddLane t3 x (.fin (0.08874905480758988950198278 : ℚ))
  let t5 := fmaddLane t4 x (.fin (-0.21458470981542561024897117 : ℚ))
  let t6 := fmaddLane t5 x (.fin (1.57079616508886408344826942 : ℚ))
  let t7 := mulF t6 (sqrtLane (subF (.fin 1) x))
  let t8 := subF (.fin (1.57079632679489661923 : ℚ)) t7
  let far := subF t8 (mulF (andMaskF (.fin 2) negate) t8)
  let near := addF x0 (mulF (mulF (mulF x0 x0) x0) (.fin (1 / 6 : ℚ)))
  orMaskF (selectF (gtF x (.fin (5e-2 : ℚ))) far near) invalid

/-- `acos_`, approximate branch.  Out-of-domain lanes (`|x| > 1`) have the
all-ones mask OR'd into the result. -/
def acosApproxLane (x0 : F) : F :=
  let x := absF x0
  let invalid : Bool := gtF x (.fin 1)
  let negate : Bool := ltF x0 (.fin 0)
  let t0 : F := .fin (0.00227944990024845419940890 : ℚ)
  let t1 := fmaddLane t0 x (.fin (-0.01109688980710918972127294 : ℚ))
  let t2 := fmaddLane t1 x (.fin (0.02684475831352801832421248 : ℚ))
  let t3 := fmaddLane t2 x (.fin (-0.04877412052802108370460564 : ℚ))
  let t4 := fmaddLane t3 x (.fin (0.08874905480758988950198278 : ℚ))
  let t5 := fmaddLane t4 x (.fin (-0.21458470981542561024897117 : ℚ))
  let t6 := fmaddLane t5 x (.fin (1.57079616508886408344826942 : ℚ))
  let t7 := mulF t6 (sqrtLane (subF (.fin 1) x))
  let t8 := subF t7 (mulF (andMaskF (.fin 2) negate) t7)
  orMaskF (addF t8 (andMaskF (.fin (3.14159265358979323846 : ℚ)) negate)) invalid

/-- `atan2_`, approximate branch. -/
def atan2ApproxLane (y x : F) : F :=
  let absX := absF x
  let absY := absF y
  let minV := minF absY absX
  let maxV := maxF absX absY
  let scale := divF (.fin 1) maxV
  let sm := mulF minV scale
  let z := mulF sm sm
  let t0 : F := .fin (0.0078613793713198150252 : ℚ)
  let t1 := fmaddLane t0 z (.fin (-0.037006525670417265220 : ℚ))
  let t2 := fmaddLane t1 z (.fin (0.083863120428809689910 : ℚ))
  let t3 := fmaddLane t2 z (.fin (-0.13486708938456973185 : ℚ))
  let t4 := fmaddLane t3 z (.fin (0.19881342388439013552 : ℚ))
  let t5 := fmaddLane t4 z (.fin (-0.33326497518773606976 : ℚ))
  let t6 := fmaddLane t5 z (.fin (0.99999934166683966009 : ℚ))
  let t7 := mulF t6 sm
  let ta := selectF (gtF absY absX) (subF (.fin (1.57079632679489661923 : ℚ)) t7) t7
  let tb := selectF (ltF x (.fin 0)) (subF (.fin (3.14159265358979323846 : ℚ)) ta) ta
  selectF (ltF y (.fin 0)) (negF tb) tb

/-- `atan_`, approximate branch: `atan2(x, 1)`. -/
def atanApproxLane (x : F) : F := atan2ApproxLane x (.fin 1)

/-- `pow_`, approximate branch: `exp(log(x) * y)`. -/
def powApproxLane (x y : F) : F := expApproxLane (mulF (logApproxLane x) y)

/-- `sinh_`, approximate branch. -/
def sinhApproxLane (x : F) : F :=
  let e0 := expApproxLane x
  let e1 := divF (.fin 1) e0
  selectF (ltF (absF x) (.fin (1e-2 : ℚ))) x (mulF (subF e0 e1) (.fin 0.5))

/-- `cosh_`, approximate branch. -/
def coshApproxLane (x : F) : F :=
  let e0 := expApproxLane x
  let e1 := divF (.fin 1) e0
  mulF (addF e0 e1) (.fin 0.5)

/-- `sincosh_`, approximate branch. -/
def sincoshApproxLane (x : F) : F × F :=
  let e0 := expApproxLane x
  let e1 := rcpF e0
  let half : F := .fin 0.5
  (selectF (ltF (absF x) (.fin (1e-2 : ℚ))) x (mulF half (subF e0 e1)),
   mulF half (addF e0 e1))

/-- `tanh_`, approximate branch. -/
def tanhApproxLane (x : F) : F :=
  let e0 := expApproxLane x
  let e1 := rcpF e0
  selectF (ltF (absF x) (.fin (1e-2 : ℚ))) x (divF (subF e0 e1) (addF e0 e1))

/-- `csch_`, approximate branch. -/
def cschApproxLane (x : F) : F :=
  let e0 := expApproxLane x
  let e1 := rcpF e0
  mulF (rcpF (subF e0 e1)) (.fin 2)

/-- `sech_`, approximate branch. -/
def sechApproxLane (x : F) : F :=
  let e0 := expApproxLane x
  let e1 := rcpF e0
  mulF (rcpF (addF e0 e1)) (.fin 2)

/-- `coth_`, approximate branch. -/
def cothApproxLane (x : F) : F :=
  let e0 := expApproxLane x
  let e1 := rcpF e0
  divF (addF e0 e1) (subF e0 e1)

/-- `asinh_`, approximate branch. -/
def asinhApproxLane (x : F) : F :=
  selectF (ltF (absF x) (.fin (1e-2 : ℚ))) x
    (logApproxLane (addF x (sqrtLane (addF (.fin 1) (mulF x x)))))

/-- `acosh_`, approximate branch. -/
def acoshApproxLane (x : F) : F :=
  logApproxLane (addF x (mulF (sqrtLane (subF x (.fin 1))) (sqrtLane (addF x (.fin 1)))))

/-- `atanh_`, approximate branch. -/
def atanhApproxLane (x : F) : F :=
  selectF (ltF (absF x) (.fin (1e-2 : ℚ))) x
    (mulF (.fin 0.5) (logApproxLane (divF (addF (.fin 1) x) (subF (.fin 1) x))))

/-- `erf_`, approximate branch (A&S 7.1.26 blended with a Taylor expansion;
the sign of the input is OR'd back into the A&S branch). -/
def erfApproxLane (x0 : F) : F :=
  let x2 := mulF x0 x0
  let x := absF x0
  let t := divF (.fin 1) (fmaddLane (.fin (0.3275911 : ℚ)) x (.fin 1))
  let y0 : F := .fin (1.061405429 : ℚ)
  let y1 := fmaddLane y0 t (.fin (-1.453152027 : ℚ))
  let y2 := fmaddLane y1 t (.fin (1.421413741 : ℚ))
  let y3 := fmaddLane y2 t (.fin (-0.284496736 : ℚ))
  let y4 := fmaddLane y3 t (.fin (0.254829592 : ℚ))
  let ev := expApproxLane (negF x2)
  let y5 := mulF y4 (mulF t ev)
  selectF (gtF x (.fin (0.08 : ℚ)))
    (orSignMaskF (subF (.fin 1) y5) (signBitF x0))
    (mulF x0 (fmaddLane x2 (.fin (-(1.12837916709551257390 / 3) : ℚ))
      (.fin (1.12837916709551257390 : ℚ))))

/-- `erfi_` (Giles' rational minimax approximation).  Unlike every other
transcendental function in the file, `erfi_` has no `if (Approx)` dispatch:
this single body is used in both modes.  Its only mode dependence is the
embedded call to the (dispatching) `log`, passed in as `logf`. -/
def erfiLane (logf : F → F) (x : F) : F :=
  let w := negF (logf (mulF (subF (.fin 1) x) (addF (.fin 1) x)))
  let w1 := subF w (.fin 2.5)
  let w2 := subF (sqrtLane w) (.fin 3)
  let p10 : F := .fin (2.81022636e-08 : ℚ)
  let p11 := fmaddLane p10 w1 (.fin (3.43273939e-07 : ℚ))
  let p12 := fmaddLane p11 w1 (.fin (-3.5233877e-06 : ℚ))
  let p13 := fmaddLane p12 w1 (.fin (-4.39150654e-06 : ℚ))
  let p14 := fmaddLane p13 w1 (.fin (0.00021858087 : ℚ))
  let p15 := fmaddLane p14 w1 (.fin (-0.00125372503 : ℚ))
  let p16 := fmaddLane p15 w1 (.fin (-0.00417768164 : ℚ))
  let p17 := fmaddLane p16 w1 (.fin (0.246640727 : ℚ))
  let p18 := fmaddLane p17 w1 (.fin (1.50140941 : ℚ))
  let p20 : F := .fin (-0.000200214257 : ℚ)
  let p21 := fmaddLane p20 w2 (.fin (0.000100950558 : ℚ))
  let p22 := fmaddLane p21 w2 (.fin (0.00134934322 : ℚ))
  let p23 := fmaddLane p22 w2 (.fin (-0.00367342844 : ℚ))
  let p24 := fmaddLane p23 w2 (.fin (0.00573950773 : ℚ))
  let p25 := fmaddLane p24 w2 (.fin (-0.0076224613 : ℚ))
  let p26 := fmaddLane p25 w2 (.fin (0.00943887047 : ℚ))
  let p27 := fmaddLane p26 w2 (.fin (1.00167406 : ℚ))
  let p28 := fmaddLane p27 w2 (.fin (2.83297682 : ℚ))
  mulF (selectF (ltF w (.fin 5)) p18 p28) x

/-! ### Dispatched transcendental functions

Each `f_` below is the whole source function: `if (Approx)` selects the
approximate branch, else a lane-wise loop over the scalar implementation
from the external library. -/

def sin_ {n : ℕ} (lib : ScalarLib) (approx : Bool) (v : Vec n) : Vec n :=
  if approx then mapF sinApproxLane v else mapF lib.sin v

def cos_ {n : ℕ} (lib : ScalarLib) (approx : Bool) (v : Vec n) : Vec n :=
  if approx then mapF cosApproxLane v else mapF lib.cos v

def sincos_ {n : ℕ} (lib : ScalarLib) (approx : Bool) (v : Vec n) : Vec n × Vec n :=
  if approx then (fun i => (sincosApproxLane (v i)).1, fun i => (sincosApproxLane (v i)).2)
  else (mapF lib.sin v, mapF lib.cos v)

def tan_ {n : ℕ} (lib : ScalarLib) (approx : Bool) (v : Vec n) : Vec n :=
  if approx then mapF tanApproxLane v else mapF lib.tan v

/-- `csc_`: `rcp(sin(x))` (no dispatch of its own; `sin` dispatches). -/
def csc_ {n : ℕ} (lib : ScalarLib) (approx : Bool) (v : Vec n) : Vec n :=
  mapF rcpF (sin_ lib approx v)

/-- `sec_`: `rcp(cos(x))`. -/
def sec_ {n : ℕ} (lib : ScalarLib) (approx : Bool) (v : Vec n) : Vec n :=
  mapF rcpF (cos_ lib approx v)

/-- `cot_`: `sincos` then `cos/sin` (no dispatch of its own). -/
def cot_ {n : ℕ} (lib : ScalarLib) (approx : Bool) (v : Vec n) : Vec n :=
  fun i => divF ((sincos_ lib approx v).2 i) ((sincos_ lib approx v).1 i)

def asin_ {n : ℕ} (lib : ScalarLib) (approx : Bool) (v : Vec n) : Vec n :=
  if approx then mapF asinApproxLane v else mapF lib.asin v

def acos_ {n : ℕ} (lib : ScalarLib) (approx : Bool) (v : Vec n) : Vec n :=
  if approx then mapF acosApproxLane v else mapF lib.acos v

def atan2_ {n : ℕ} (lib : ScalarLib) (approx : Bool) (v x : Vec n) : Vec n :=
  if approx then fun i => atan2ApproxLane (v i) (x i)
  else fun i => lib.atan2 (v i) (x i)

def atan_ {n : ℕ} (lib : ScalarLib) (approx : Bool) (v : Vec n) : Vec n :=
  if approx then mapF atanApproxLane v else mapF lib.atan v

def exp_ {n : ℕ} (lib : ScalarLib) (approx : Bool) (v : Vec n) : Vec n :=
  if approx then mapF expApproxLane v else mapF lib.exp v

def log_ {n : ℕ} (lib : ScalarLib) (approx : Bool) (v : Vec n) : Vec n :=
  if approx then mapF logApproxLane v else mapF lib.log v

def ldexp_ {n : ℕ} (lib : ScalarLib) (approx : Bool) (v m : Vec n) : Vec n :=
  if approx then fun i => ldexpApproxLane (v i) (m i)
  else fun i => lib.ldexp (v i) (m i)

def frexp_ {n : ℕ} (lib : ScalarLib) (approx : Bool) (v : Vec n) : Vec n × Vec n :=
  if approx then (fun i => (frexpApproxLane (v i)).1, fun i => (frexpApproxLane (v i)).2)
  else (fun i => (lib.frexp (v i)).1, fun i => (lib.frexp (v i)).2)

def pow_ {n : ℕ} (lib : ScalarLib) (approx : Bool) (v y : Vec n) : Vec n :=
  if approx then fun i => powApproxLane (v i) (y i)
  else fun i => lib.pow (v i) (y i)

def sinh_ {n : ℕ} (lib : ScalarLib) (approx : Bool) (v : Vec n) : Vec n :=
  if approx then mapF sinhApproxLane v else mapF lib.sinh v

def cosh_ {n : ℕ} (lib : ScalarLib) (approx : Bool) (v : Vec n) : Vec n :=
  if approx then mapF coshApproxLane v else mapF lib.cosh v

def sincosh_ {n : ℕ} (lib : ScalarLib) (approx : Bool) (v : Vec n) : Vec n × Vec n :=
  if approx then (fun i => (sincoshApproxLane (v i)).1, fun i => (sincoshApproxLane (v i)).2)
  else (mapF lib.sinh v, mapF lib.cosh v)

def tanh_ {n : ℕ} (lib : ScalarLib) (approx : Bool) (v : Vec n) : Vec n :=
  if approx then mapF tanhApproxLane v else mapF lib.tanh v

def csch_ {n : ℕ} (lib : ScalarLib) (approx : Bool) (v : Vec n) : Vec n :=
  if approx then mapF cschApproxLane v else mapF lib.csch v

def sech_ {n : ℕ} (lib : ScalarLib) (approx : Bool) (v : Vec n) : Vec n :=
  if approx then mapF sechApproxLane v else mapF lib.sech v

def coth_ {n : ℕ} (lib : ScalarLib) (approx : Bool) (v : Vec n) : Vec n :=
  if approx then mapF cothApproxLane v else mapF lib.coth v

def asinh_ {n : ℕ} (lib : ScalarLib) (approx : Bool) (v : Vec n) : Vec n :=
  if approx then mapF asinhApproxLane v else mapF lib.asinh v

def acosh_ {n : ℕ} (lib : ScalarLib) (approx : Bool) (v : Vec n) : Vec n :=
  if approx then mapF acoshApproxLane v else mapF lib.acosh v

def atanh_ {n : ℕ} (lib : ScalarLib) (approx : Bool) (v : Vec n) : Vec n :=
  if approx then mapF atanhApproxLane v else mapF lib.atanh v

def erf_ {n : ℕ} (lib : ScalarLib) (approx : Bool) (v : Vec n) : Vec n :=
  if approx then mapF erfApproxLane v else mapF lib.erf v

/-- `erfi_`: a single body with no `Approx` dispatch of its own; the
embedded `log` call dispatches. -/
def erfi_ {n : ℕ} (lib : ScalarLib) (approx : Bool) (v : Vec n) : Vec n :=
  mapF (erfiLane (fun x => if approx then logApproxLane x else lib.log x)) v

/-! ### Rotation fallback (`rol_`, unsigned lanes)

A lane is a `w`-bit unsigned value (`w = 8 * sizeof(Scalar)`), modelled as
a natural number `< 2^w`.  `rol_(k)` is
`(v << (k & mask)) | (v >> ((~k + 1u) & mask))` with
`mask = 8*sizeof(Scalar) - 1`; the shift count `k` is a 64-bit `size_t`,
so `~k + 1u` is `2^64 - k (mod 2^64)`, and the left shift is stored into a
`w`-bit lane (mod `2^w`). -/

/-- `~k + 1u` on a 64-bit `size_t`. -/
def neg64 (k : ℕ) : ℕ := (2 ^ 64 - k % 2 ^ 64) % 2 ^ 64

/-- One lane of the unsigned `rol_` fallback. -/
def rolLane (w v k : ℕ) : ℕ :=
  ((v <<< (k &&& (w - 1))) % 2 ^ w) ||| (v >>> (neg64 k &&& (w - 1)))

/-- `rol_` fallback on a whole vector of `w`-bit unsigned lanes. -/
def rol_ {n : ℕ} (w : ℕ) (v : Fin n → ℕ) (k : ℕ) : Fin n → ℕ :=
  fun i => rolLane w (v i) k

/-! ### Masked operation fallbacks (`ENOKI_MASKED_OPERATOR_FALLBACK`)

`d.mNAME_(e, m)` is `d = select(m, d OP e, d)`; the masked-assign proxy
`v[m] OP= e` calls exactly these.  Generic in the lane type, as in the
source template. -/

/-- `select(mask, t, e)` on whole vectors. -/
def vselect {n : ℕ} {α : Type} (m : Fin n → Bool) (t e : Fin n → α) : Fin n → α :=
  fun i => if m i then t i else e i

/-- Unmasked lane-wise binary operator (supplied by the concrete type). -/
def vbinop {n : ℕ} {α : Type} (f : α → α → α) (v e : Fin n → α) : Fin n → α :=
  fun i => f (v i) (e i)

def massign_ {n : ℕ} {α : Type} (v e : Fin n → α) (m : Fin n → Bool) : Fin n → α :=
  vselect m e v

def madd_ {n : ℕ} {α : Type} [Add α] (v e : Fin n → α) (m : Fin n → Bool) : Fin n → α :=
  vselect m (vbinop (· + ·) v e) v

def msub_ {n : ℕ} {α : Type} [Sub α] (v e : Fin n → α) (m : Fin n → Bool) : Fin n → α :=
  vselect m (vbinop (· - ·) v e) v

def mmul_ {n : ℕ} {α : Type} [Mul α] (v e : Fin n → α) (m : Fin n → Bool) : Fin n → α :=
  vselect m (vbinop (· * ·) v e) v

def mdiv_ {n : ℕ} {α : Type} [Div α] (v e : Fin n → α) (m : Fin n → Bool) : Fin n → α :=
  vselect m (vbinop (· / ·) v e) v

def mor_ {n : ℕ} {α : Type} [OrOp α] (v e : Fin n → α) (m : Fin n → Bool) : Fin n → α :=
  vselect m (vbinop (· ||| ·) v e) v

def mand_ {n : ℕ} {α : Type} [AndOp α] (v e : Fin n → α) (m : Fin n → Bool) : Fin n → α :=
  vselect m (vbinop (· &&& ·) v e) v

def mxor_ {n : ℕ} {α : Type} [Xor α] (v e : Fin n → α) (m : Fin n → Bool) : Fin n → α :=
  vselect m (vbinop (· ^^^ ·) v e) v

/-! ### Fused multiply-add/sub alternating variants -/

/-- `fmaddsub_`: `fmsub` on even lanes, `fmadd` on odd lanes. -/
def fmaddsub_ {n : ℕ} (a b c : Vec n) : Vec n :=
  fun i => if i.val % 2 = 0 then fmsubLane (a i) (b i) (c i) else fmaddLane (a i) (b i) (c i)

/-- `fmsubadd_`: `fmadd` on even lanes, `fmsub` on odd lanes. -/
def fmsubadd_ {n : ℕ} (a b c : Vec n) : Vec n :=
  fun i => if i.val % 2 = 0 then fmaddLane (a i) (b i) (c i) else fmsubLane (a i) (b i) (c i)

/-! ### Element access with debug range check (`ArrayBase::operator[]`) -/

/-- The out-of-range message: reports the attempted index and the size. -/
def rangeMsg (i n : ℕ) : String :=
  "ArrayBase: out of range access (tried to access index " ++ toString i ++
    " in an array of size " ++ toString n ++ ")"

/-- `operator[]` with the debug range check enabled: throws
`std::out_of_range` for `i >= size()`, else returns lane `i`. -/
def opIndex {n : ℕ} (v : Vec n) (i : ℕ) : Except String F :=
  if h : n ≤ i then .error (rangeMsg i n)
  else .ok (v ⟨i, Nat.lt_of_not_le h⟩)

/-! ### resize_ -/

/-- `resize_` on a fixed-size array: a length error unless the requested
size is exactly the static size; the lane data is never touched. -/
def resize_ {n : ℕ} (v : Vec n) (s : ℕ) : Except String Unit × Vec n :=
  (if s ≠ n then .error "Incompatible size for static array" else .ok (), v)

/-! ### Recursive size decomposition (`Size1`/`Size2`) -/

/-- Modelled from the spec: `detail::lpow2` is declared in a header outside
this component; the spec states `Size1 = largest power of two ≤ N`. -/
def lpow2 (n : ℕ) : ℕ := if n = 0 then 0 else 2 ^ natLog2 n

/-- `Size1 = lpow2(Size)`. -/
def Size1 (n : ℕ) : ℕ := lpow2 n

/-- `Size2 = Size - Size1`. -/
def Size2 (n : ℕ) : ℕ := n - Size1 n

/-! ### Concrete values used by witnesses -/

/-- An arbitrary concrete scalar library (every function constantly NaN):
the fallback loops call through it, so any choice exercises the paths. -/
def trivLib : ScalarLib where
  sin := fun _ => F.nan false
  cos := fun _ => F.nan false
  tan := fun _ => F.nan false
  asin := fun _ => F.nan false
  acos := fun _ => F.nan false
  atan := fun _ => F.nan false
  atan2 := fun _ _ => F.nan false
  exp := fun _ => F.nan false
  log := fun _ => F.nan false
  ldexp := fun _ _ => F.nan false
  frexp := fun _ => (F.nan false, F.nan false)
  pow := fun _ _ => F.nan false
  sinh := fun _ => F.nan false
  cosh := fun _ => F.nan false
  tanh := fun _ => F.nan false
  csch := fun _ => F.nan false
  sech := fun _ => F.nan false
  coth := fun _ => F.nan false
  asinh := fun _ => F.nan false
  acosh := fun _ => F.nan false
  atanh := fun _ => F.nan false
  erf := fun _ => F.nan false
  erfi := fun _ => F.nan false

/-- 1-lane vector holding `2.0`. -/
def vecTwo : Vec 1 := fun _ => F.fin 2

/-- 1-lane vector holding `-2.0`. -/
def vecNegTwo : Vec 1 := fun _ => F.fin (-2)

/-- 1-lane vector holding `-1.0`. -/
def vecNegOne : Vec 1 := fun _ => F.fin (-1)

/-- 1-lane vector holding `+∞`. -/
def vecPinf : Vec 1 := fun _ => F.pinf

/-- 4-lane vector holding `0,1,2,3`. -/
def vecIota4 : Vec 4 := fun i => F.fin i.val

/-- 1-lane vector holding `0.0`. -/
def vecZero : Vec 1 := fun _ => F.fin 0

/-- `trivLib` with a non-trivial scalar `erfi` (constantly `1.0`). -/
def libErfiOne : ScalarLib := { trivLib with erfi := fun _ => F.fin 1 }

end Enoki

namespace Enoki

/-! ## Claims -/

/-- **C5**: for every compound masked operator (assign, add, sub, mul, div,
and, or, xor), every target vector `v` and operand `e` (over any lane type
with the primitive operators, as in the source template): with the all-false
mask the vector is unchanged; with the all-true mask the result is the
corresponding unmasked lane-wise operator applied to `v` and `e`.  The
masked-assign proxy (`detail::MaskWrapper`) forwards `=`, `+=` … `^=`
directly to these `m*_` fallbacks. -/
theorem claim5_masked_operator_identity {n : ℕ} {α : Type}
    [Add α] [Sub α] [Mul α] [Div α] [OrOp α] [AndOp α] [Xor α]
    (v e : Fin n → α) :
    (massign_ v e (fun _ => false) = v ∧ massign_ v e (fun _ => true) = e) ∧
    (madd_ v e (fun _ => false) = v ∧
      madd_ v e (fun _ => true) = vbinop (· + ·) v e) ∧
    (msub_ v e (fun _ => false) = v ∧
      msub_ v e (fun _ => true) = vbinop (· - ·) v e) ∧
    (mmul_ v e (fun _ => false) = v ∧
      mmul_ v e (fun _ => true) = vbinop (· * ·) v e) ∧
    (mdiv_ v e (fun _ => false) = v ∧
      mdiv_ v e (fun _ => true) = vbinop (· / ·) v e) ∧
    (mand_ v e (fun _ => false) = v ∧
      mand_ v e (fun _ => true) = vbinop (· &&& ·) v e) ∧
    (mor_ v e (fun _ => false) = v ∧
      mor_ v e (fun _ => true) = vbinop (· ||| ·) v e) ∧
    (mxor_ v e (fun _ => false) = v ∧
      mxor_ v e (fun _ => true) = vbinop (· ^^^ ·) v e) := by
  refine ⟨⟨?_, ?_⟩, ⟨?_, ?_⟩, ⟨?_, ?_⟩, ⟨?_, ?_⟩, ⟨?_, ?_⟩, ⟨?_, ?_⟩, ⟨?_, ?_⟩, ?_, ?_⟩ <;>
    funext i <;>
    simp [massign_, madd_, msub_, mmul_, mdiv_, mand_, mor_, mxor_, vselect, vbinop]

/-- **C8**: the combined fused multiply-add/sub variants alternate per lane
index: `fmaddsub_` gives `a*b - c` on even lanes and `a*b + c` on odd
lanes; `fmsubadd_` the other way around. -/
theorem claim8_fmaddsub_alternation {n : ℕ} (a b c : Vec n) (i : Fin n) :
    (i.val % 2 = 0 →
      fmaddsub_ a b c i = subF (mulF (a i) (b i)) (c i) ∧
      fmsubadd_ a b c i = addF (mulF (a i) (b i)) (c i)) ∧
    (i.val % 2 = 1 →
      fmaddsub_ a b c i = addF (mulF (a i) (b i)) (c i) ∧
      fmsubadd_ a b c i = subF (mulF (a i) (b i)) (c i)) := by
  constructor
  · intro h
    simp [fmaddsub_, fmsubadd_, h, fmsubLane, fmaddLane]
  · intro h
    have h0 : ¬ (i.val % 2 = 0) := by omega
    simp [fmaddsub_, fmsubadd_, h0, fmsubLane, fmaddLane]

/-- Witness for C8 at concrete lanes: `a = (1,2)`, `b = (3,4)`, `c = (5,6)`;
the even lane of `fmaddsub_` is `1*3 - 5` and its odd lane `2*4 + 6`. -/
theorem claim8_witness :
    ((0 : Fin 2).val % 2 = 0 ∧
      fmaddsub_ (fun i => F.fin (i.val + 1)) (fun i => F.fin (i.val + 3))
          (fun i => F.fin (i.val + 5)) (0 : Fin 2) =
        subF (mulF (F.fin 1) (F.fin 3)) (F.fin 5)) ∧
    ((1 : Fin 2).val % 2 = 1 ∧
      fmaddsub_ (fun i => F.fin (i.val + 1)) (fun i => F.fin (i.val + 3))
          (fun i => F.fin (i.val + 5)) (1 : Fin 2) =
        addF (mulF (F.fin 2) (F.fin 4)) (F.fin 6)) := by
  constructor
  · exact ⟨by decide,
      ((claim8_fmaddsub_alternation (fun i => F.fin (i.val + 1))
        (fun i => F.fin (i.val + 3)) (fun i => F.fin (i.val + 5)) (0 : Fin 2)).1 (by decide)).1⟩
  · exact ⟨by decide,
      ((claim8_fmaddsub_alternation (fun i => F.fin (i.val + 1))
        (fun i => F.fin (i.val + 3)) (fun i => F.fin (i.val + 5)) (1 : Fin 2)).2 (by decide)).1⟩

/-- **C9**: `resize_` on a fixed-size vector fails with the length error
exactly when the requested size differs from the static size, succeeds on
the static size, and never changes the lane contents. -/
theorem claim9_resize {n : ℕ} (v : Vec n) (s : ℕ) :
    ((resize_ v s).1 = .error "Incompatible size for static array" ↔ s ≠ n) ∧
    (s = n → (resize_ v s).1 = .ok ()) ∧
    (resize_ v s).2 = v := by
  by_cases h : s = n
  · subst h
    simp [resize_]
  · simp [resize_, h]

/-- Witness for C9 at size 4: resizing to 3 errors, resizing to 4 succeeds,
and the data is untouched in both cases. -/
theorem claim9_witness :
    ((resize_ vecIota4 3).1 = .error "Incompatible size for static array" ∧
      (resize_ vecIota4 3).2 = vecIota4) ∧
    ((resize_ vecIota4 4).1 = .ok () ∧ (resize_ vecIota4 4).2 = vecIota4) := by
  refine ⟨⟨(claim9_resize vecIota4 3).1.mpr (by decide), (claim9_resize vecIota4 3).2.2⟩,
    ⟨(claim9_resize vecIota4 4).2.1 rfl, (claim9_resize vecIota4 4).2.2⟩⟩

/-- **C1**: in approximate mode, numerically out-of-domain inputs do not
abort or raise (the embedded functions are total, and the source branch
contains no throw): a lane with `|x| > 1` makes `asin` and `acos` OR the
all-bits-set mask into that lane (`F.nan true`), and a negative lane makes
`log` do the same via `z | ~validMask`. -/
theorem claim1_domain_invalid {n : ℕ} (lib : ScalarLib) (v : Vec n) (i : Fin n)
    (q : ℚ) (hv : v i = F.fin q) :
    (1 < |q| → asin_ lib true v i = F.nan true) ∧
    (1 < |q| → acos_ lib true v i = F.nan true) ∧
    (q < 0 → log_ lib true v i = F.nan true) := by
  refine ⟨fun h => ?_, fun h => ?_, fun h => ?_⟩
  · show asinApproxLane (v i) = F.nan true
    rw [hv]
    simp only [asinApproxLane, absF, gtF, ltF, orMaskF, decide_eq_true h, if_true]
  · show acosApproxLane (v i) = F.nan true
    rw [hv]
    simp only [acosApproxLane, absF, gtF, ltF, orMaskF, decide_eq_true h, if_true]
  · show logApproxLane (v i) = F.nan true
    rw [hv]
    have hvalid : geF (F.fin q) (F.fin 0) = false := by
      simp [geF, isNanF, ltF, h]
    have hne : eqF (F.fin q) F.pinf = false := rfl
    simp only [logApproxLane, hvalid, hne, selectF, orMaskF, Bool.not_false,
      if_true, Bool.false_eq_true, if_false]

/-- Witness for C1: `asin(2.0)`, `acos(-2.0)` and `log(-1.0)` all produce
the all-bits-set invalid lane rather than an error. -/
theorem claim1_witness :
    asin_ trivLib true vecTwo 0 = F.nan true ∧
    acos_ trivLib true vecNegTwo 0 = F.nan true ∧
    log_ trivLib true vecNegOne 0 = F.nan true :=
  ⟨(claim1_domain_invalid trivLib vecTwo 0 2 rfl).1 (by norm_num),
   (claim1_domain_invalid trivLib vecNegTwo 0 (-2) rfl).2.1 (by norm_num),
   (claim1_domain_invalid trivLib vecNegOne 0 (-1) rfl).2.2 (by norm_num)⟩

/-- **C10** (implicit): in approximate mode, a `+∞` lane is mapped by `log`
to exactly `+∞` — the dedicated `select(x == inf, inf, …)` takes precedence
over the invalid-mask OR and the polynomial path — and the lane is not
tagged invalid. -/
theorem claim10_log_inf {n : ℕ} (lib : ScalarLib) (v : Vec n) (i : Fin n)
    (hv : v i = F.pinf) :
    log_ lib true v i = F.pinf ∧ log_ lib true v i ≠ F.nan true := by
  have h : log_ lib true v i = logApproxLane (v i) := rfl
  rw [h, hv]
  exact ⟨rfl, by decide⟩

/-- Witness for C10: a concrete 1-lane `+∞` vector. -/
theorem claim10_witness :
    log_ trivLib true vecPinf 0 = F.pinf ∧ log_ trivLib true vecPinf 0 ≠ F.nan true :=
  claim10_log_inf trivLib vecPinf 0 rfl

/-- **C2**, counterexample: the claim asserts that *every* listed
transcendental function, erfi included, calls the scalar implementation
lane-wise when `Approx` is false.  `erfi_` has no `Approx` dispatch and
never calls a scalar `erfi`: with a scalar library whose `erfi` is
constantly `1.0`, `erfi(0.0)` in non-approximate mode returns the Giles
polynomial value (a NaN here, since the library `log` feeding `w` returns
NaN), not `1.0`. -/
theorem claim2_counterexample :
    ¬ (∀ (lib : ScalarLib) (v : Vec 1), erfi_ lib false v = mapF lib.erfi v) := by
  intro hcl
  have h := congrFun (hcl libErfiOne vecZero) 0
  have hL : erfi_ libErfiOne false vecZero 0 = F.nan false := by decide
  have hR : mapF libErfiOne.erfi vecZero 0 = F.fin 1 := rfl
  rw [hL, hR] at h
  exact F.noConfusion h

/-- **C2** (amended): every transcendental function of the library *except
erfi* has the two code paths selected by the `Approx` flag, and with
`Approx = false` computes its lanes through the scalar implementation —
directly for the dispatching functions, and as the reciprocal of the
scalar `sin`/`cos` (resp. the `cos/sin` quotient) for the delegating
`csc`/`sec`/`cot`.  `erfi_` alone has a single body independent of the
scalar library's `erfi` (last conjunct: replacing the scalar `erfi` never
changes its result), and with `Approx = true` the dispatch selects the
approximate branch (shown for `sin_` and `erfi_`). -/
theorem claim2_scalar_fallback {n : ℕ} (lib : ScalarLib) (v x : Vec n)
    (approx : Bool) (f : F → F) :
    sin_ lib false v = mapF lib.sin v ∧
    cos_ lib false v = mapF lib.cos v ∧
    sincos_ lib false v = (mapF lib.sin v, mapF lib.cos v) ∧
    tan_ lib false v = mapF lib.tan v ∧
    csc_ lib false v = mapF (fun y => rcpF (lib.sin y)) v ∧
    sec_ lib false v = mapF (fun y => rcpF (lib.cos y)) v ∧
    cot_ lib false v = (fun i => divF (lib.cos (v i)) (lib.sin (v i))) ∧
    asin_ lib false v = mapF lib.asin v ∧
    acos_ lib false v = mapF lib.acos v ∧
    atan2_ lib false v x = (fun i => lib.atan2 (v i) (x i)) ∧
    atan_ lib false v = mapF lib.atan v ∧
    exp_ lib false v = mapF lib.exp v ∧
    log_ lib false v = mapF lib.log v ∧
    ldexp_ lib false v x = (fun i => lib.ldexp (v i) (x i)) ∧
    frexp_ lib false v = (fun i => (lib.frexp (v i)).1, fun i => (lib.frexp (v i)).2) ∧
    pow_ lib false v x = (fun i => lib.pow (v i) (x i)) ∧
    sinh_ lib false v = mapF lib.sinh v ∧
    cosh_ lib false v = mapF lib.cosh v ∧
    sincosh_ lib false v = (mapF lib.sinh v, mapF lib.cosh v) ∧
    tanh_ lib false v = mapF lib.tanh v ∧
    csch_ lib false v = mapF lib.csch v ∧
    sech_ lib false v = mapF lib.sech v ∧
    coth_ lib false v = mapF lib.coth v ∧
    asinh_ lib false v = mapF lib.asinh v ∧
    acosh_ lib false v = mapF lib.acosh v ∧
    atanh_ lib false v = mapF lib.atanh v ∧
    erf_ lib false v = mapF lib.erf v ∧
    sin_ lib true v = mapF sinApproxLane v ∧
    erfi_ { lib with erfi := f } approx v = erfi_ lib approx v ∧
    erfi_ lib true v = mapF (erfiLane logApproxLane) v :=
  ⟨rfl, rfl, rfl, rfl, rfl, rfl, rfl, rfl, rfl, rfl, rfl, rfl, rfl, rfl, rfl,
   rfl, rfl, rfl, rfl, rfl, rfl, rfl, rfl, rfl, rfl, rfl, rfl, rfl, rfl, rfl⟩

/-- **C3**: with debug range checking enabled, `operator[](i)` on a vector
of size `n` fails for every `i ≥ n` with an out-of-range error whose
message contains the rendered attempted index and the rendered array size,
and returns lane `i` without error for every `i < n`. -/
theorem claim3_bounds_check {n : ℕ} (v : Vec n) (i : ℕ) :
    (n ≤ i → opIndex v i = .error (rangeMsg i n)) ∧
    (∀ h : i < n, opIndex v i = .ok (v ⟨i, h⟩)) ∧
    (toString i).data <:+: (rangeMsg i n).data ∧
    (toString n).data <:+: (rangeMsg i n).data := by
  refine ⟨fun h => ?_, fun h => ?_, ?_, ?_⟩
  · simp [opIndex, h]
  · simp [opIndex, Nat.not_le_of_lt h]
  · refine ⟨("ArrayBase: out of range access (tried to access index ").data,
      ((" in an array of size " ++ toString n ++ ")").data), ?_⟩
    simp [rangeMsg, String.data_append]
  · refine ⟨("ArrayBase: out of range access (tried to access index " ++ toString i ++
      " in an array of size ").data, (")" : String).data, ?_⟩
    simp [rangeMsg, String.data_append]

/-- Witness for C3 on a concrete 4-lane vector: index 7 fails with the
message naming 7 and 4; index 2 returns lane 2. -/
theorem claim3_witness :
    opIndex vecIota4 7 = .error (rangeMsg 7 4) ∧
    opIndex vecIota4 2 = .ok (F.fin 2) := by
  constructor
  · exact (claim3_bounds_check vecIota4 7).1 (by decide)
  · have h := (claim3_bounds_check vecIota4 2).2.1 (by decide)
    simpa [vecIota4] using h

/-- **C4**, counterexample: the claim puts the saturation thresholds at
`±88.38`, but the code compares against `±88.3762626647949`.  At
`x = 88.376264` — inside `[-88.38, 88.38]`, so the claim requires the
range-reduced polynomial/`ldexp` path — the code's first select already
saturates to `+∞` (`x > 88.3762626647949`), while the `ldexp` path value is
finite (`n = 127`, so the reconstructed exponent field is `254`, giving a
finite factor `2^127`). -/
theorem claim4_counterexample :
    ¬ (∀ q : ℚ,
        ((88.38 : ℚ) < q → expApproxLane (F.fin q) = F.pinf) ∧
        (q < -88.38 → expApproxLane (F.fin q) = F.fin 0) ∧
        (-88.38 ≤ q → q ≤ 88.38 →
          expApproxLane (F.fin q) =
            ldexpApproxLane (expZLane (F.fin q)) (expNLane (F.fin q)))) := by
  intro hcl
  have h := (hcl 88.376264).2.2 (by decide) (by decide)
  have hne : expApproxLane (F.fin 88.376264) ≠
      ldexpApproxLane (expZLane (F.fin 88.376264)) (expNLane (F.fin 88.376264)) := by
    decide
  exact hne h

/-- **C4** (amended): the saturation thresholds are the code's
`±88.3762626647949` (not `±88.38`): above the threshold the lane is `+∞`,
below its negation the lane is `0`, and in between the lane is the
range-reduced polynomial `e^g` reconstructed through the exponent-bit
`ldexp` with `n = floor(x/log 2 + 1/2)`. -/
theorem claim4_exp_saturation (q : ℚ) :
    (expMaxRange < q → expApproxLane (F.fin q) = F.pinf) ∧
    (q < -expMaxRange → expApproxLane (F.fin q) = F.fin 0) ∧
    (-expMaxRange ≤ q → q ≤ expMaxRange →
      expApproxLane (F.fin q) =
        ldexpApproxLane (expZLane (F.fin q)) (expNLane (F.fin q))) := by
  refine ⟨fun h => ?_, fun h => ?_, fun h1 h2 => ?_⟩
  · simp only [expApproxLane, selectF, gtF, ltF, decide_eq_true h, if_true]
  · have hT : (0 : ℚ) < expMaxRange := by decide
    have hnot : ¬ (expMaxRange < q) := by
      intro hc
      linarith
    simp only [expApproxLane, selectF, gtF, ltF, decide_eq_false hnot,
      decide_eq_true h, Bool.false_eq_true, if_false, if_true]
  · simp only [expApproxLane, selectF, gtF, ltF, decide_eq_false (not_lt.mpr h2),
      decide_eq_false (not_lt.mpr h1), Bool.false_eq_true, if_false]

/-- Witness for C4: `exp` saturates to `+∞` at 89, to `0` at −89, and at 0
takes the `ldexp`-reconstructed polynomial path. -/
theorem claim4_witness :
    (expMaxRange < 89 ∧ expApproxLane (F.fin 89) = F.pinf) ∧
    ((-89 : ℚ) < -expMaxRange ∧ expApproxLane (F.fin (-89)) = F.fin 0) ∧
    ((-expMaxRange ≤ (0 : ℚ) ∧ (0 : ℚ) ≤ expMaxRange) ∧
      expApproxLane (F.fin 0) =
        ldexpApproxLane (expZLane (F.fin 0)) (expNLane (F.fin 0))) :=
  ⟨⟨by decide, (claim4_exp_saturation 89).1 (by decide)⟩,
   ⟨by decide, (claim4_exp_saturation (-89)).2.1 (by decide)⟩,
   ⟨⟨by decide, by decide⟩, (claim4_exp_saturation 0).2.2 (by decide) (by decide)⟩⟩

/-! ### Rotation round trip (C6): supporting lemmas -/

/-- Masking `~k + 1u` to a power-of-two bit width is negation mod the
width. -/
lemma neg64_and (p k : ℕ) (hp : p ≤ 64) (hk : k ≤ 2 ^ p) :
    neg64 k &&& (2 ^ p - 1) = (2 ^ p - k) % 2 ^ p := by
  have hdvd : (2:ℕ) ^ p ∣ 2 ^ 64 := pow_dvd_pow 2 hp
  have hple : (2:ℕ) ^ p ≤ 2 ^ 64 := Nat.pow_le_pow_right (by omega) hp
  have hk64 : k ≤ 2 ^ 64 := hk.trans hple
  rw [Nat.and_pow_two_sub_one_eq_mod, neg64, Nat.mod_mod_of_dvd _ hdvd]
  rcases Nat.lt_or_ge k (2 ^ 64) with hlt | hge
  · rw [Nat.mod_eq_of_lt hlt]
    have hb : 1 ≤ (2:ℕ) ^ (64 - p) := Nat.one_le_two_pow
    have hA : 2 ^ p * (2 ^ (64 - p) - 1) + 2 ^ p = 2 ^ 64 := by
      rw [← Nat.mul_succ, Nat.succ_eq_add_one, Nat.sub_add_cancel hb, ← pow_add]
      congr 1
      omega
    have hsplit : 2 ^ 64 - k = 2 ^ p * (2 ^ (64 - p) - 1) + (2 ^ p - k) := by omega
    rw [hsplit, Nat.mul_add_mod]
  · have hk2 : k = 2 ^ 64 := le_antisymm hk64 hge
    have heq : (2:ℕ) ^ p = 2 ^ 64 := le_antisymm hple (by omega)
    rw [hk2, heq]
    simp

/-- A rotation count that is `0 mod w` leaves the lane unchanged. -/
lemma rolLane_mod_zero (p w v k : ℕ) (hw : w = 2 ^ p) (hp : p ≤ 64) (hv : v < 2 ^ w)
    (hk : k ≤ w) (hk0 : k % w = 0) : rolLane w v k = v := by
  subst hw
  have hleft : k &&& (2 ^ p - 1) = 0 := by rw [Nat.and_pow_two_sub_one_eq_mod]; exact hk0
  have hright : neg64 k &&& (2 ^ p - 1) = 0 := by
    rw [neg64_and p k hp hk]
    rcases Nat.eq_zero_or_pos k with h0 | h0
    · subst h0; simp
    · have hke : k = 2 ^ p := by
        rcases Nat.lt_or_ge k (2 ^ p) with h | h
        · exact absurd (Nat.mod_eq_of_lt h ▸ hk0) (by omega)
        · omega
      subst hke; simp
  rw [rolLane, hleft, hright]
  simp [Nat.mod_eq_of_lt hv, Nat.or_self]

/-- For `0 < k < w`, the two masked complementary shifts OR together to the
arithmetic rotation `(v mod 2^(w-k)) * 2^k + v / 2^(w-k)`. -/
lemma rolLane_eval (p w v k : ℕ) (hw : w = 2 ^ p) (hp : p ≤ 64) (hv : v < 2 ^ w)
    (hk0 : 0 < k) (hk : k < w) :
    rolLane w v k = (v % 2 ^ (w - k)) * 2 ^ k + v / 2 ^ (w - k) := by
  have hleft : k &&& (w - 1) = k := by
    rw [hw, Nat.and_pow_two_sub_one_eq_mod, Nat.mod_eq_of_lt (hw ▸ hk)]
  have hright : neg64 k &&& (w - 1) = w - k := by
    rw [hw]
    rw [neg64_and p k hp (hw ▸ hk.le)]
    exact Nat.mod_eq_of_lt (by omega)
  have hsplitpow : 2 ^ (w - k) * 2 ^ k = 2 ^ w := by rw [← pow_add]; congr 1; omega
  have hdivlt : v / 2 ^ (w - k) < 2 ^ k := by
    rw [Nat.div_lt_iff_lt_mul (Nat.two_pow_pos _)]
    calc v < 2 ^ w := hv
    _ = 2 ^ k * 2 ^ (w - k) := by rw [← pow_add]; congr 1; omega
  rw [rolLane, hleft, hright, Nat.shiftLeft_eq, Nat.shiftRight_eq_div_pow]
  rw [← hsplitpow, Nat.mul_mod_mul_right]
  calc (v % 2 ^ (w - k)) * 2 ^ k ||| v / 2 ^ (w - k)
      = 2 ^ k * (v % 2 ^ (w - k)) ||| v / 2 ^ (w - k) := by rw [Nat.mul_comm]
  _ = 2 ^ k * (v % 2 ^ (w - k)) + v / 2 ^ (w - k) := (Nat.mul_add_lt_is_or hdivlt _).symm
  _ = (v % 2 ^ (w - k)) * 2 ^ k + v / 2 ^ (w - k) := by ring

/-- The rotation fallback keeps lanes inside their bit width. -/
lemma rolLane_lt (p w v k : ℕ) (hw : w = 2 ^ p) (hp : p ≤ 64) (hv : v < 2 ^ w)
    (hk : k ≤ w) : rolLane w v k < 2 ^ w := by
  rcases Nat.eq_zero_or_pos (k % w) with h0 | h0
  · rw [rolLane_mod_zero p w v k hw hp hv hk h0]; exact hv
  · have hwpos : 0 < w := by rw [hw]; exact Nat.two_pow_pos p
    have hklt : k < w := by
      rcases Nat.lt_or_ge k w with h | h
      · exact h
      · have : k = w := by omega
        subst this
        simp [Nat.mod_self] at h0
    have hkpos : 0 < k := by
      rcases Nat.eq_zero_or_pos k with h | h
      · subst h; simp at h0
      · exact h
    rw [rolLane_eval p w v k hw hp hv hkpos hklt]
    have hb : v / 2 ^ (w - k) < 2 ^ k := by
      rw [Nat.div_lt_iff_lt_mul (Nat.two_pow_pos _)]
      calc v < 2 ^ w := hv
      _ = 2 ^ k * 2 ^ (w - k) := by rw [← pow_add]; congr 1; omega
    have ha : v % 2 ^ (w - k) < 2 ^ (w - k) := Nat.mod_lt _ (Nat.two_pow_pos _)
    calc (v % 2 ^ (w - k)) * 2 ^ k + v / 2 ^ (w - k)
        < (v % 2 ^ (w - k)) * 2 ^ k + 2 ^ k := by omega
    _ = (v % 2 ^ (w - k) + 1) * 2 ^ k := by ring
    _ ≤ 2 ^ (w - k) * 2 ^ k := Nat.mul_le_mul_right _ (by omega)
    _ = 2 ^ w := by rw [← pow_add]; congr 1; omega

/-- Lane-level rotation round trip. -/
lemma rolLane_roundtrip (p w v k : ℕ) (hw : w = 2 ^ p) (hp : p ≤ 64) (hv : v < 2 ^ w)
    (hk : k < w) : rolLane w (rolLane w v k) (w - k) = v := by
  rcases Nat.eq_zero_or_pos k with h0 | h0
  · subst h0
    rw [rolLane_mod_zero p w v 0 hw hp hv (by omega) (by simp)]
    exact rolLane_mod_zero p w v w hw hp hv (le_refl w) (by simp)
  · have hm0 : 0 < w - k := by omega
    have hm : w - k < w := by omega
    have hu := rolLane_eval p w v k hw hp hv h0 hk
    have hult : rolLane w v k < 2 ^ w := rolLane_lt p w v k hw hp hv hk.le
    rw [rolLane_eval p w (rolLane w v k) (w - k) hw hp hult hm0 hm, hu]
    have hwk : w - (w - k) = k := by omega
    rw [hwk]
    have hb : v / 2 ^ (w - k) < 2 ^ k := by
      rw [Nat.div_lt_iff_lt_mul (Nat.two_pow_pos _)]
      calc v < 2 ^ w := hv
      _ = 2 ^ k * 2 ^ (w - k) := by rw [← pow_add]; subst hw; congr 1; omega
    have hmodk : (v % 2 ^ (w - k) * 2 ^ k + v / 2 ^ (w - k)) % 2 ^ k = v / 2 ^ (w - k) := by
      rw [Nat.mul_comm (v % 2 ^ (w - k)) (2 ^ k), Nat.mul_add_mod, Nat.mod_eq_of_lt hb]
    have hdivk : (v % 2 ^ (w - k) * 2 ^ k + v / 2 ^ (w - k)) / 2 ^ k = v % 2 ^ (w - k) := by
      rw [Nat.mul_comm (v % 2 ^ (w - k)) (2 ^ k), Nat.mul_add_div (Nat.two_pow_pos _),
        Nat.div_eq_of_lt hb, Nat.add_zero]
    rw [hmodk, hdivk]
    calc v / 2 ^ (w - k) * 2 ^ (w - k) + v % 2 ^ (w - k)
        = 2 ^ (w - k) * (v / 2 ^ (w - k)) + v % 2 ^ (w - k) := by ring
    _ = v := Nat.div_add_mod v (2 ^ (w - k))

/-- **C6**: rotate round trip — for every vector of `w`-bit unsigned lanes
(`w = 2^p` the scalar's bit width, at most 64) and every rotation count
`k ∈ [0, w)`, `rol(rol(v, k), w - k) = v`, where `rol_` is the fallback
built from the two complementary shifts OR'd together with shift counts
masked to the bit width. -/
theorem claim6_rol_roundtrip {n : ℕ} (p w : ℕ) (v : Fin n → ℕ) (k : ℕ)
    (hw : w = 2 ^ p) (hp : p ≤ 64) (hv : ∀ i, v i < 2 ^ w) (hk : k < w) :
    rol_ w (rol_ w v k) (w - k) = v := by
  funext i
  exact rolLane_roundtrip p w (v i) k hw hp (hv i) hk

/-- Witness for C6: 8-bit lanes, `v = (183)`, `k = 3`. -/
theorem claim6_witness :
    ((8 : ℕ) = 2 ^ 3 ∧ (3 : ℕ) ≤ 64 ∧ (∀ i : Fin 1, (fun _ => 183 : Fin 1 → ℕ) i < 2 ^ 8) ∧
      (3 : ℕ) < 8) ∧
    rol_ 8 (rol_ 8 (fun _ => 183 : Fin 1 → ℕ) 3) 5 = (fun _ => 183) :=
  ⟨⟨by decide, by decide, by decide, by decide⟩,
    claim6_rol_roundtrip 3 8 (fun _ => 183) 3 (by decide) (by decide) (by decide) (by decide)⟩

/-! ### Size decomposition (C7): supporting lemmas -/

/-- The fuel-based binary logarithm brackets its argument:
`2 ^ natLog2F fuel n ≤ n < 2 ^ (natLog2F fuel n + 1)` once the fuel covers
`n`. -/
lemma natLog2F_spec (fuel : ℕ) : ∀ n, 1 ≤ n → n ≤ fuel →
    2 ^ natLog2F fuel n ≤ n ∧ n < 2 ^ (natLog2F fuel n + 1) := by
  induction fuel with
  | zero => intro n h1 h2; omega
  | succ fuel ih =>
    intro n h1 h2
    by_cases hsmall : n ≤ 1
    · have hn : n = 1 := by omega
      subst hn
      simp [natLog2F]
    · simp only [natLog2F, if_neg hsmall]
      have hd1 : 1 ≤ n / 2 := by omega
      have hd2 : n / 2 ≤ fuel := by omega
      obtain ⟨hA, hB⟩ := ih (n / 2) hd1 hd2
      have e1 : (2:ℕ) ^ (natLog2F fuel (n / 2) + 1) = 2 ^ natLog2F fuel (n / 2) * 2 :=
        pow_succ 2 _
      have e2 : (2:ℕ) ^ (natLog2F fuel (n / 2) + 1 + 1) =
          2 ^ natLog2F fuel (n / 2) * 2 * 2 := by
        rw [pow_succ, e1]
      constructor
      · omega
      · omega

/-- `2 ^ natLog2 n ≤ n < 2 ^ (natLog2 n + 1)` for `n ≥ 1`. -/
lemma natLog2_spec (n : ℕ) (h : 1 ≤ n) :
    2 ^ natLog2 n ≤ n ∧ n < 2 ^ (natLog2 n + 1) :=
  natLog2F_spec n n h (le_refl n)

/-- **C7** (spec-modelled `lpow2`): for every lane count `N > 0`,
`Size1 N` is a power of two, `Size1 N ≤ N`, it is the largest power of two
not exceeding `N`, and `Size1 N + Size2 N = N`. -/
theorem claim7_size_decomposition (n : ℕ) (h : 0 < n) :
    (∃ p, Size1 n = 2 ^ p) ∧ Size1 n ≤ n ∧
    (∀ m, 2 ^ m ≤ n → 2 ^ m ≤ Size1 n) ∧ Size1 n + Size2 n = n := by
  have hne : n ≠ 0 := by omega
  obtain ⟨hA, hB⟩ := natLog2_spec n h
  have hS : Size1 n = 2 ^ natLog2 n := by simp [Size1, lpow2, hne]
  have hle : Size1 n ≤ n := by rw [hS]; exact hA
  refine ⟨⟨natLog2 n, hS⟩, hle, ?_, ?_⟩
  · intro m hm
    rw [hS]
    apply Nat.pow_le_pow_right (by omega)
    have hlt : 2 ^ m < 2 ^ (natLog2 n + 1) := lt_of_le_of_lt hm hB
    have := (Nat.pow_lt_pow_iff_right (by omega : 1 < 2)).mp hlt
    omega
  · have h2 : Size2 n = n - Size1 n := rfl
    omega

/-- Witness for C7 at `N = 5`: `Size1 = 4`, `Size2 = 1`. -/
theorem claim7_witness :
    (0 < 5 ∧ Size1 5 + Size2 5 = 5 ∧ Size1 5 ≤ 5) ∧ Size1 5 = 4 ∧ Size2 5 = 1 :=
  ⟨⟨by decide, (claim7_size_decomposition 5 (by decide)).2.2.2,
    (claim7_size_decomposition 5 (by decide)).2.1⟩, by decide, by decide⟩

end Enoki
